import Mathlib

/-!
Shallow embedding of the ZetValidation library (src/ZetSchema.ts,
src/primitives.ts).  JavaScript values that can appear as validation
candidates are modelled by the inductive `Val`; JavaScript objects
(`Record<string,string>` error maps, the cache `Map`, the `stages`
record) are modelled as insertion-ordered association lists with
JavaScript assignment semantics (updating an existing key keeps its
position, a new key is appended).  Asynchrony is erased: `await` of a
child validation is modelled as a direct call, which is exact for
synchronous validators and for asynchronous ones that complete in
scheduling order.  Mutable state (the shared cache maps, a
call-counting instrumentation field, and the list of progress events
delivered to a caller-supplied `onProgress` callback) is threaded
explicitly through every evaluation as a `Ctx` value.
-/

/-- A file-like value: the observable fields of a browser `File`
(`name`, `type`, `size` in bytes). -/
structure FileV where
  name : String
  type : String
  size : Nat
deriving DecidableEq, Repr

/-- JavaScript candidate values. -/
inductive Val where
  | vStr : String → Val
  | vNum : Int → Val
  | vBool : Bool → Val
  | vNull : Val
  | vUndefined : Val
  | vFile : FileV → Val
  | vArr : List Val → Val
  | vObj : List (String × Val) → Val

/-- `ValidationResult<T>` from src/ZetSchema.ts:
`{ success: true; data: T } | { success: false; errors: Record<string,string> }`. -/
inductive ValidationResult where
  | success : Val → ValidationResult
  | failure : List (String × String) → ValidationResult

/-- Lookup in a JavaScript object / `Map`, first binding wins
(there is at most one binding per key under `recordSet`). -/
def recordLookup {κ α : Type} [DecidableEq κ] : List (κ × α) → κ → Option α
  | [], _ => none
  | (k0, v0) :: rest, k => if k0 = k then some v0 else recordLookup rest k

/-- JavaScript `obj[k] = v` / `Map.set`: update an existing key in place
(keeping its position in insertion order), append a fresh key. -/
def recordSet {κ α : Type} [DecidableEq κ] : List (κ × α) → κ → α → List (κ × α)
  | [], k, v => [(k, v)]
  | (k0, v0) :: rest, k, v =>
      if k0 = k then (k0, v) :: rest else (k0, v0) :: recordSet rest k v

/-- JavaScript `Object.assign(target, source)`: set each source entry on
the target in source order. -/
def recordAssign {κ α : Type} [DecidableEq κ] (target source : List (κ × α)) : List (κ × α) :=
  source.foldl (fun acc kv => recordSet acc kv.1 kv.2) target

theorem recordLookup_recordSet_self {κ α : Type} [DecidableEq κ]
    (m : List (κ × α)) (k : κ) (v : α) :
    recordLookup (recordSet m k v) k = some v := by
  induction m with
  | nil => simp [recordSet, recordLookup]
  | cons hd tl ih =>
      by_cases h : hd.1 = k
      · simp [recordSet, recordLookup, h]
      · simp [recordSet, recordLookup, h, ih]

/-- The effect context threaded through every evaluation. `cache` models
the contents of every cache `Map` in existence, keyed by a map identity
(`setCache`'s `new Map()` is modelled by the caller picking a fresh
identity) paired with the string cache key.  `calls` is an
instrumentation counter incremented by call-counting stub validators.
`events` is the list of `(field, progress)` pairs delivered to a
caller-supplied `onProgress` callback. -/
structure Ctx where
  cache : List ((Nat × String) × ValidationResult)
  calls : Nat
  events : List (String × Nat)

def Ctx.empty : Ctx := ⟨[], 0, []⟩

mutual

/-- `JSON.stringify` on candidate values (string escaping elided:
the development only serializes escape-free strings).  A browser `File`
has no enumerable own properties, so it serializes to `"{}"`;
`undefined` serializes to `null` inside arrays and its field is omitted
inside objects (top-level `undefined` is handled in `cacheKey`). -/
def jsonStringify : Val → String
  | .vStr s => "\"" ++ s ++ "\""
  | .vNum n => toString n
  | .vBool b => if b then "true" else "false"
  | .vNull => "null"
  | .vUndefined => "null"
  | .vFile _ => "\x7b\x7d"
  | .vArr items => "[" ++ jsonStringifyList items ++ "]"
  | .vObj fields => "\x7b" ++ jsonStringifyFields fields ++ "\x7d"

def jsonStringifyList : List Val → String
  | [] => ""
  | [x] => jsonStringify x
  | x :: y :: rest => jsonStringify x ++ "," ++ jsonStringifyList (y :: rest)

def jsonStringifyFields : List (String × Val) → String
  | [] => ""
  | (_, .vUndefined) :: rest => jsonStringifyFields rest
  | (k, x) :: rest =>
      "\"" ++ k ++ "\":" ++ jsonStringify x ++
        (if (jsonStringifyFields rest) = "" then "" else "," ++ jsonStringifyFields rest)

end

/-- The cache key computed by `safeParse`:
`` `${stage}:${JSON.stringify(value)}` `` (`JSON.stringify(undefined)`
is `undefined`, which the template literal renders as `"undefined"`). -/
def cacheKey (stage : String) (v : Val) : String :=
  stage ++ ":" ++ (match v with | .vUndefined => "undefined" | x => jsonStringify x)

/-- The type of a validation function `(value, parent?, { onProgress }?)`.
The `Bool` argument records whether an `onProgress` callback was supplied
in the third (options) argument; the entry points never supply one. -/
def Validator : Type :=
  Val → Option Val → Bool → Ctx → ValidationResult × Ctx

/-- The `ZetSchema<T>` class (type parameter erased: data is `Val`).
`cacheRef` models the optional reference to a shared cache `Map`. -/
structure ZetSchema where
  validator : Validator
  description : String
  transformFn : Option (Val → Val)
  cacheRef : Option Nat
  stages : List (String × Validator)

/-- The `ZetSchema` constructor: seeds `stages` with a `"default"`
entry holding the constructor's validator. -/
def mkSchema (validator : Validator) (description : String)
    (transformFn : Option (Val → Val)) (cacheRef : Option Nat) : ZetSchema :=
  ⟨validator, description, transformFn, cacheRef, [("default", validator)]⟩

/-- `this.stages[stage] ? this.stages[stage] : this.validator` —
stage lookup with fallback to the constructor's validator. -/
def stageFn (s : ZetSchema) (stage : String) : Validator :=
  match recordLookup s.stages stage with
  | some f => f
  | none => s.validator

/-- `{ ...res, data: res.success && this.transformFn ? this.transformFn(res.data) : res.data }`. -/
def applyTransform (t : Option (Val → Val)) : ValidationResult → ValidationResult
  | .success d => .success (match t with | some f => f d | none => d)
  | .failure e => .failure e

/-- `ZetSchema.safeParse(value, parent?, stage = "default")`
(src/ZetSchema.ts lines 29–43).  Computes the cache key; on a cache hit
returns the cached result immediately; otherwise runs the stage's
validator (invoked with `(value, parent)` only — no options argument),
applies the transform to a success, stores the finalized result when a
cache is attached, and returns it. -/
def ZetSchema.safeParse (s : ZetSchema) (value : Val) (parent : Option Val)
    (stage : String) (ctx : Ctx) : ValidationResult × Ctx :=
  let key := cacheKey stage value
  match s.cacheRef with
  | some id =>
      match recordLookup ctx.cache (id, key) with
      | some cached => (cached, ctx)
      | none =>
          let out := stageFn s stage value parent false ctx
          let finalRes := applyTransform s.transformFn out.1
          (finalRes, { out.2 with cache := recordSet out.2.cache (id, key) finalRes })
  | none =>
      let out := stageFn s stage value parent false ctx
      (applyTransform s.transformFn out.1, out.2)

/-- `ZetSchema.parse(value, parent?, stage = "default")`
(src/ZetSchema.ts lines 17–27).  Runs the stage's validator; on success
applies the transform and returns the value, on failure throws an error
whose message is `Object.values(res.errors)[0]` — the first error-map
entry in insertion order (`undefined` when the error map is empty).
`parse` never consults the cache. -/
def ZetSchema.parse (s : ZetSchema) (value : Val) (parent : Option Val)
    (stage : String) (ctx : Ctx) : Except String Val × Ctx :=
  let out := stageFn s stage value parent false ctx
  match out.1 with
  | .success d =>
      (Except.ok (match s.transformFn with | some f => f d | none => d), out.2)
  | .failure errs =>
      (Except.error ((errs.map Prod.snd).headD "undefined"), out.2)

/-- `describe(description)` — new node with the same validator,
transform and cache, a new description (fresh default-seeded stages). -/
def ZetSchema.describe (s : ZetSchema) (description : String) : ZetSchema :=
  mkSchema s.validator description s.transformFn s.cacheRef

/-- `setTransform(fn)` — new node with the given transform. -/
def ZetSchema.setTransform (s : ZetSchema) (fn : Val → Val) : ZetSchema :=
  mkSchema s.validator s.description (some fn) s.cacheRef

/-- `optional()` — new node whose validator passes `undefined` through
as a success and otherwise delegates to `this.validator(value)`
(called with the value only — no parent, no options). -/
def ZetSchema.optional (s : ZetSchema) : ZetSchema :=
  mkSchema
    (fun value _parent _onProg ctx =>
      match value with
      | .vUndefined => (.success .vUndefined, ctx)
      | v => s.validator v none false ctx)
    s.description s.transformFn s.cacheRef

/-- `extend()` — new node with all four constructor arguments copied. -/
def ZetSchema.extend (s : ZetSchema) : ZetSchema :=
  mkSchema s.validator s.description s.transformFn s.cacheRef

/-- `setCache()` — new node carrying a reference to a `new Map()`;
the fresh map's identity is supplied by the caller and its contents
start absent from the context (the context's `cache` holds no entries
for an identity never written). -/
def ZetSchema.setCache (s : ZetSchema) (freshId : Nat) : ZetSchema :=
  mkSchema s.validator s.description s.transformFn (some freshId)

/-- `stage(name, fn)` — `this.stages[name] = fn(this).validator; return this;`
the one derivation that mutates the receiver's `stages` mapping in place
and returns the receiver itself. -/
def ZetSchema.stage (s : ZetSchema) (name : String) (fn : ZetSchema → ZetSchema) : ZetSchema :=
  { s with stages := recordSet s.stages name (fn s).validator }

/-- `parent ?? {}` — `undefined` and `null` parents default to the
empty object context. -/
def coalesceParent : Option Val → Val
  | none => .vObj []
  | some .vNull => .vObj []
  | some .vUndefined => .vObj []
  | some p => p

/-- `when(condition, then, otherwise)` — new node whose validator
applies the predicate to `parent ?? {}` per call and runs the selected
branch node's validator with `(value, parent)` (no options argument). -/
def ZetSchema.when (s : ZetSchema) (condition : Val → Bool)
    (thenB otherwiseB : ZetSchema → ZetSchema) : ZetSchema :=
  mkSchema
    (fun value parent _onProg ctx =>
      (if condition (coalesceParent parent) then thenB s else otherwiseB s).validator
        value parent false ctx)
    s.description s.transformFn s.cacheRef

/-- `type(allowedTypes, message?)` — refinement: run the base validator
(`this.validator(value)`, value only); propagate a failure unchanged;
fail with a single entry keyed by the node's description when the
success value is a `File` whose MIME type is not allowed; otherwise
pass the base success through. -/
def ZetSchema.type (s : ZetSchema) (allowedTypes : List String)
    (message : Option String) : ZetSchema :=
  mkSchema
    (fun value _parent _onProg ctx =>
      let out := s.validator value none false ctx
      match out.1 with
      | .failure e => (.failure e, out.2)
      | .success d =>
          match d with
          | .vFile f =>
              if allowedTypes.contains f.type then (.success d, out.2)
              else
                (.failure [(s.description,
                  message.getD (s.description ++ " must be one of: " ++
                    String.intercalate ", " allowedTypes))], out.2)
          | _ => (.success d, out.2))
    s.description s.transformFn s.cacheRef

/-- `maxSizeMB(maxMB, message?)` — refinement: propagate a base failure
unchanged; fail when the success value is a `File` whose size exceeds
`maxMB * 1024 * 1024` bytes; otherwise pass the success through. -/
def ZetSchema.maxSizeMB (s : ZetSchema) (maxMB : Nat)
    (message : Option String) : ZetSchema :=
  mkSchema
    (fun value _parent _onProg ctx =>
      let out := s.validator value none false ctx
      match out.1 with
      | .failure e => (.failure e, out.2)
      | .success d =>
          match d with
          | .vFile f =>
              if maxMB * 1024 * 1024 < f.size then
                (.failure [(s.description,
                  message.getD (s.description ++ " must not exceed " ++
                    toString maxMB ++ "MB"))], out.2)
              else (.success d, out.2)
          | _ => (.success d, out.2))
    s.description s.transformFn s.cacheRef

/-- `serverValidate(check, message?)` — refinement delegating to an
external check.  The check is modelled as a pure function returning its
verdict together with the progress values it reports; the wrapper
`(progress) => onProgress?.(this.description, progress)` forwards each
report to the caller's callback — qualified by the node's description —
only when an `onProgress` callback was supplied in the validator's
options argument.  The base is run as `this.validator(value, parent)`. -/
def ZetSchema.serverValidate (s : ZetSchema) (check : FileV → Bool × List Nat)
    (message : Option String) : ZetSchema :=
  mkSchema
    (fun value parent onProg ctx =>
      let out := s.validator value parent false ctx
      match out.1 with
      | .failure e => (.failure e, out.2)
      | .success d =>
          match d with
          | .vFile f =>
              let checked := check f
              let ctx2 :=
                if onProg then
                  { out.2 with
                    events := out.2.events ++ checked.2.map (fun pr => (s.description, pr)) }
                else out.2
              if checked.1 then (.success d, ctx2)
              else (.failure [(s.description, message.getD "Server rejected the file")], ctx2)
          | _ => (.success d, out.2))
    s.description s.transformFn s.cacheRef

namespace ZetValidation

/-- `string()` from src/primitives.ts — base node accepting exactly
string candidates, error map `{ value: "Expected a string" }`. -/
def string : ZetSchema :=
  mkSchema
    (fun value _parent _onProg ctx =>
      match value with
      | .vStr sv => (.success (.vStr sv), ctx)
      | _ => (.failure [("value", "Expected a string")], ctx))
    "value" none none

/-- `file()` from src/primitives.ts — base node accepting exactly
`File` candidates. -/
def file : ZetSchema :=
  mkSchema
    (fun value _parent _onProg ctx =>
      match value with
      | .vFile f => (.success (.vFile f), ctx)
      | _ => (.failure [("value", "Expected a file")], ctx))
    "value" none none

end ZetValidation

/-- JavaScript property access `candidate[key]` for the candidate
shapes that can occur (object field, numeric array index, the
observable `File` fields); anything else reads `undefined`. -/
def getField : Val → String → Val
  | .vObj fields, k => (recordLookup fields k).getD .vUndefined
  | .vArr items, k =>
      (match k.toNat? with
       | some i => items.getD i .vUndefined
       | none => .vUndefined)
  | .vFile f, k =>
      if k = "name" then .vStr f.name
      else if k = "type" then .vStr f.type
      else if k = "size" then .vNum f.size
      else .vUndefined
  | _, _ => .vUndefined

/-- `typeof value === "object"` on candidate values. -/
def typeofObject : Val → Bool
  | .vObj _ => true
  | .vArr _ => true
  | .vNull => true
  | .vFile _ => true
  | _ => false

/-- One batch of the `array` combinator: for the batch starting at
global index `base`, validate each element with
`itemSchema.safeParse(item)` (no parent, default stage); a failing
element records each of its error entries under
`` `${base+idx}.${key}` ``, a succeeding element's value is pushed onto
the result sequence.  Asynchrony erased, elements complete in batch
order. -/
def runBatchItems (itemSchema : ZetSchema) (base : Nat) :
    List Val → Nat → List Val → List (String × String) → Ctx →
    List Val × List (String × String) × Ctx
  | [], _, acc, errs, ctx => (acc, errs, ctx)
  | item :: rest, idx, acc, errs, ctx =>
      let out := itemSchema.safeParse item none "default" ctx
      match out.1 with
      | .failure es =>
          runBatchItems itemSchema base rest (idx + 1) acc
            (es.foldl (fun e kv => recordSet e (toString (base + idx) ++ "." ++ kv.1) kv.2) errs)
            out.2
      | .success d =>
          runBatchItems itemSchema base rest (idx + 1) (acc ++ [d]) errs out.2

/-- The batching loop of the `array` combinator: slice off
`concPred + 1` elements at a time (the source guarantees a positive
batch size via `options.batchConcurrency || 4`) and process each batch
with `runBatchItems`.  The first argument is the number of remaining
loop iterations; every batch consumes at least one element, so the
element count is a bound on the iterations (`array` passes exactly
that, and `runBatches_eq_runSeq` below shows any sufficient bound
computes the loop's result). -/
def runBatches (itemSchema : ZetSchema) (concPred : Nat) :
    Nat → List Val → Nat → List Val → List (String × String) → Ctx →
    List Val × List (String × String) × Ctx
  | _, [], _, acc, errs, ctx => (acc, errs, ctx)
  | 0, _ :: _, _, acc, errs, ctx => (acc, errs, ctx)
  | fuel + 1, item :: rest, base, acc, errs, ctx =>
      let batch := item :: rest.take concPred
      let step := runBatchItems itemSchema base batch 0 acc errs ctx
      runBatches itemSchema concPred fuel (rest.drop concPred) (base + (concPred + 1))
        step.1 step.2.1 step.2.2

/-- `array(itemSchema, options?)` from src/primitives.ts: reject
non-arrays; otherwise validate the elements in batches of
`options.batchConcurrency || 4` and return the full ordered sequence
when the merged error map is empty, the merged index-prefixed error map
otherwise. -/
def ZetValidation.array (itemSchema : ZetSchema) (batchConcurrency : Option Nat) : ZetSchema :=
  mkSchema
    (fun value _parent _onProg ctx =>
      match value with
      | .vArr items =>
          let conc :=
            match batchConcurrency with
            | some n => if n = 0 then 4 else n
            | none => 4
          let out := runBatches itemSchema (conc - 1) items.length items 0 [] [] ctx
          if out.2.1.isEmpty then (.success (.vArr out.1), out.2.2)
          else (.failure out.2.1, out.2.2)
      | _ => (.failure [("value", "Expected an array")], ctx))
    "value" none none

/-- The field loop of the `object` combinator: validate every declared
field with `schema.safeParse(value[key], value)` (the whole candidate
as parent context); merge a failing field's error map into the
accumulated errors with `Object.assign` (the child's own keys, no
prefix); record a succeeding field's value under its field name.
Asynchrony erased, fields complete in declaration order. -/
def runFields (candidate : Val) :
    List (String × ZetSchema) → List (String × Val) → List (String × String) → Ctx →
    List (String × Val) × List (String × String) × Ctx
  | [], result, errs, ctx => (result, errs, ctx)
  | (key, schema) :: rest, result, errs, ctx =>
      let out := schema.safeParse (getField candidate key) (some candidate) "default" ctx
      match out.1 with
      | .failure es => runFields candidate rest result (recordAssign errs es) out.2
      | .success d => runFields candidate rest (recordSet result key d) errs out.2

/-- `object(shape)` from src/primitives.ts, together with the
`formRule` attachment (`formRule(instance, rule)` sets the instance's
`formRule` field, which the validator closure reads at evaluation
time): reject candidates that are not non-null objects; validate every
declared field; when every field succeeds and a form rule is attached,
a rule verdict other than `true` becomes a single `"form"`-keyed error;
succeed with the assembled record exactly when the error map is empty. -/
def ZetValidation.object (shape : List (String × ZetSchema))
    (formRuleFn : Option (List (String × Val) → Option String)) : ZetSchema :=
  mkSchema
    (fun value _parent _onProg ctx =>
      if typeofObject value && !(value matches .vNull) then
        let out := runFields value shape [] [] ctx
        let errs :=
          if out.2.1.isEmpty then
            match formRuleFn with
            | some rule =>
                (match rule out.1 with
                 | some msg => recordSet out.2.1 "form" msg
                 | none => out.2.1)
            | none => out.2.1
          else out.2.1
        if errs.isEmpty then (.success (.vObj out.1), out.2.2)
        else (.failure errs, out.2.2)
      else (.failure [("value", "Expected an object")], ctx))
    "value" none none

/-! ### Cache behaviour of the safe entry point -/

/-- After any `safeParse` call on a cache-carrying node, the node's
cache map holds the returned outcome under the call's key (a hit leaves
the stored outcome in place; a miss stores the finalized outcome after
the validator returns, so the entry-point write wins). -/
theorem safeParse_caches (s : ZetSchema) (id : Nat) (v : Val) (p : Option Val)
    (stage : String) (ctx : Ctx) (h : s.cacheRef = some id) :
    recordLookup (s.safeParse v p stage ctx).2.cache (id, cacheKey stage v)
      = some (s.safeParse v p stage ctx).1 := by
  unfold ZetSchema.safeParse
  rw [h]
  cases hcg : recordLookup ctx.cache (id, cacheKey stage v) with
  | some cached => simp [hcg]
  | none => simp [hcg, recordLookup_recordSet_self]

/-- A `safeParse` call whose key is present in the node's cache returns
the cached outcome immediately and leaves the context untouched. -/
theorem safeParse_hit (s : ZetSchema) (id : Nat) (v : Val) (p : Option Val)
    (stage : String) (ctx : Ctx) (r : ValidationResult) (h : s.cacheRef = some id)
    (hl : recordLookup ctx.cache (id, cacheKey stage v) = some r) :
    s.safeParse v p stage ctx = (r, ctx) := by
  unfold ZetSchema.safeParse
  rw [h]
  simp [hl]

/-- A call-counting stub validator: accepts every candidate and bumps
the instrumentation counter on each invocation. -/
def stubValidator : Validator :=
  fun value _parent _onProg ctx => (.success value, { ctx with calls := ctx.calls + 1 })

/-- The counting stub wrapped in a node with a transform and a cache. -/
def countingNode : ZetSchema :=
  (mkSchema stubValidator "value" (some (fun _ => Val.vStr "transformed")) none).setCache 7

/-- C2: for every node with a cache enabled, a second `safeParse` with
the identical candidate and stage returns the identical Outcome and
leaves the evaluation context exactly as the first call left it — in
particular the underlying validator is not invoked again (an invocation
would be visible in the context, e.g. through a call-counting stub),
and the cached Outcome already carries the applied transform. -/
theorem safeParse_idempotent (s : ZetSchema) (id : Nat) (v : Val) (p : Option Val)
    (stage : String) (ctx : Ctx) (h : s.cacheRef = some id) :
    s.safeParse v p stage (s.safeParse v p stage ctx).2
      = ((s.safeParse v p stage ctx).1, (s.safeParse v p stage ctx).2) :=
  safeParse_hit s id v p stage (s.safeParse v p stage ctx).2
    (s.safeParse v p stage ctx).1 h (safeParse_caches s id v p stage ctx h)

/-- C2 witness: with a call-counting stub validator and a transform,
the first call runs the validator once and returns the transformed
outcome; the second identical call returns the same Outcome with the
call counter still at one. -/
theorem safeParse_idempotent_witness :
    (countingNode.safeParse (Val.vStr "x") none "default" Ctx.empty).2.calls = 1
    ∧ (countingNode.safeParse (Val.vStr "x") none "default" Ctx.empty).1
        = ValidationResult.success (Val.vStr "transformed")
    ∧ countingNode.safeParse (Val.vStr "x") none "default"
        (countingNode.safeParse (Val.vStr "x") none "default" Ctx.empty).2
      = ((countingNode.safeParse (Val.vStr "x") none "default" Ctx.empty).1,
         (countingNode.safeParse (Val.vStr "x") none "default" Ctx.empty).2) :=
  ⟨rfl, rfl,
   safeParse_idempotent countingNode 7 (Val.vStr "x") none "default" Ctx.empty rfl⟩

/-- A cached size-limited file node and two files with different sizes:
both serialize to `"{}"`, so they share one cache key. -/
def cachedFileNode : ZetSchema := (ZetValidation.file.maxSizeMB 1 none).setCache 3

def smallFile : FileV := ⟨"a.png", "image/png", 100⟩

def bigFile : FileV := ⟨"b.mp4", "video/mp4", 3000000⟩

/-- C10: the cache key is the stage name joined with the JSON
serialization of the candidate and is not injective: whenever two
distinct candidates produce the same key (e.g. two different `File`
objects, which both serialize to `"{}"`), the second safe evaluation
returns the Outcome cached for the first candidate and does not
evaluate the second candidate at all (the context is untouched). -/
theorem cache_key_collision (s : ZetSchema) (id : Nat) (v1 v2 : Val) (p : Option Val)
    (stage : String) (ctx : Ctx) (h : s.cacheRef = some id)
    (_hne : v1 ≠ v2) (hkey : cacheKey stage v1 = cacheKey stage v2) :
    s.safeParse v2 p stage (s.safeParse v1 p stage ctx).2
      = ((s.safeParse v1 p stage ctx).1, (s.safeParse v1 p stage ctx).2) := by
  apply safeParse_hit s id v2 p stage _ _ h
  rw [← hkey]
  exact safeParse_caches s id v1 p stage ctx h

/-- C10 witness: a 100-byte file and a 3 MB file are distinct
candidates with equal cache keys on a cached 1 MB-limit node; directly
evaluating the big file fails, yet after the small file was validated
the big file gets the small file's cached success, unexamined. -/
theorem cache_key_collision_witness :
    Val.vFile smallFile ≠ Val.vFile bigFile
    ∧ cacheKey "default" (Val.vFile smallFile) = cacheKey "default" (Val.vFile bigFile)
    ∧ (cachedFileNode.safeParse (Val.vFile smallFile) none "default" Ctx.empty).1
        = ValidationResult.success (Val.vFile smallFile)
    ∧ (ZetValidation.file.maxSizeMB 1 none).safeParse (Val.vFile bigFile) none "default" Ctx.empty
        = (ValidationResult.failure [("value", "value must not exceed 1MB")], Ctx.empty)
    ∧ cachedFileNode.safeParse (Val.vFile bigFile) none "default"
        (cachedFileNode.safeParse (Val.vFile smallFile) none "default" Ctx.empty).2
      = ((cachedFileNode.safeParse (Val.vFile smallFile) none "default" Ctx.empty).1,
         (cachedFileNode.safeParse (Val.vFile smallFile) none "default" Ctx.empty).2) :=
  ⟨by simp [smallFile, bigFile], rfl, rfl, rfl,
   cache_key_collision cachedFileNode 3 (Val.vFile smallFile) (Val.vFile bigFile)
     none "default" Ctx.empty rfl (by simp [smallFile, bigFile]) rfl⟩

/-! ### The throwing entry point -/

/-- C6: the throwing entry point runs the stage's evaluation without
consulting any cache: a successful evaluation returns the value with
the transform applied when present, a failed evaluation raises an
error whose message is the first entry of the failure's error map in
insertion order; on a cache-less node this agrees with the safe entry
point's (transformed) Outcome. -/
theorem parse_entry (s : ZetSchema) (v : Val) (p : Option Val) (stage : String)
    (ctx : Ctx) :
    (∀ d ctx2, stageFn s stage v p false ctx = (.success d, ctx2) →
        s.parse v p stage ctx
          = (Except.ok (match s.transformFn with | some f => f d | none => d), ctx2))
    ∧ (∀ errs ctx2, stageFn s stage v p false ctx = (.failure errs, ctx2) →
        s.parse v p stage ctx
          = (Except.error ((errs.map Prod.snd).headD "undefined"), ctx2))
    ∧ (s.cacheRef = none →
        (∀ d ctx2, s.safeParse v p stage ctx = (.success d, ctx2) →
            s.parse v p stage ctx = (Except.ok d, ctx2))
        ∧ (∀ errs ctx2, s.safeParse v p stage ctx = (.failure errs, ctx2) →
            s.parse v p stage ctx
              = (Except.error ((errs.map Prod.snd).headD "undefined"), ctx2))) := by
  refine ⟨?_, ?_, ?_⟩
  · intro d ctx2 hev
    unfold ZetSchema.parse
    rw [hev]
  · intro errs ctx2 hev
    unfold ZetSchema.parse
    rw [hev]
  · intro h
    unfold ZetSchema.safeParse ZetSchema.parse
    rw [h]
    rcases hout : stageFn s stage v p false ctx with ⟨r, ctx1⟩
    cases r with
    | success d0 =>
        constructor
        · intro d ctx2 hsp
          simp [applyTransform] at hsp
          simp [hsp.1, hsp.2]
        · intro errs ctx2 hsp
          simp [applyTransform] at hsp
    | failure errs0 =>
        constructor
        · intro d ctx2 hsp
          simp [applyTransform] at hsp
        · intro errs ctx2 hsp
          simp [applyTransform] at hsp
          simp [hsp.1, hsp.2]

/-- A node with a transform, for the C6 witness. -/
def transformedString : ZetSchema :=
  ZetValidation.string.setTransform (fun _ => Val.vStr "T")

/-- C6 witness: on a success `parse` returns the transformed value that
`safeParse` reports; on a failure it raises the first error-map entry. -/
theorem parse_entry_witness :
    transformedString.parse (Val.vStr "ok") none "default" Ctx.empty
      = (Except.ok (Val.vStr "T"), Ctx.empty)
    ∧ ZetValidation.string.parse (Val.vNum 1) none "default" Ctx.empty
      = (Except.error "Expected a string", Ctx.empty) :=
  ⟨((parse_entry transformedString (Val.vStr "ok") none "default" Ctx.empty).2.2 rfl).1
     (Val.vStr "T") Ctx.empty rfl,
   ((parse_entry ZetValidation.string (Val.vNum 1) none "default" Ctx.empty).2.2 rfl).2
     [("value", "Expected a string")] Ctx.empty rfl⟩

/-! ### Refinement short-circuit -/

/-- C3: when the base node's evaluation fails, each refinement
(`type`, `maxSizeMB`, `serverValidate`) returns the base failure
unchanged — same error map, same context (so the refinement's own
check cannot have run: any external effect of the check would be
visible in the context). -/
theorem refinement_short_circuit (s : ZetSchema) (allowed : List String)
    (m1 m2 m3 : Option String) (check : FileV → Bool × List Nat) (maxMB : Nat)
    (v : Val) (p : Option Val) (b : Bool) (ctx : Ctx)
    (errs : List (String × String)) (ctx2 : Ctx)
    (h : ∀ q : Option Val, s.validator v q false ctx = (.failure errs, ctx2)) :
    (s.type allowed m1).validator v p b ctx = (.failure errs, ctx2)
    ∧ (s.maxSizeMB maxMB m2).validator v p b ctx = (.failure errs, ctx2)
    ∧ (s.serverValidate check m3).validator v p b ctx = (.failure errs, ctx2) := by
  refine ⟨?_, ?_, ?_⟩
  · unfold ZetSchema.type mkSchema
    simp [h none]
  · unfold ZetSchema.maxSizeMB mkSchema
    simp [h none]
  · unfold ZetSchema.serverValidate mkSchema
    simp [h p]

/-- C3 witness: a non-string candidate fails the `string` base node,
and every refinement layered on top returns that failure verbatim. -/
theorem refinement_short_circuit_witness :
    (ZetValidation.string.type ["image/png"] none).validator (Val.vNum 7) none false Ctx.empty
      = (ValidationResult.failure [("value", "Expected a string")], Ctx.empty)
    ∧ (ZetValidation.string.maxSizeMB 5 none).validator (Val.vNum 7) none false Ctx.empty
      = (ValidationResult.failure [("value", "Expected a string")], Ctx.empty)
    ∧ (ZetValidation.string.serverValidate (fun _ => (false, [1])) none).validator
        (Val.vNum 7) none false Ctx.empty
      = (ValidationResult.failure [("value", "Expected a string")], Ctx.empty) :=
  refinement_short_circuit ZetValidation.string ["image/png"] none none none
    (fun _ => (false, [1])) 5 (Val.vNum 7) none false Ctx.empty
    [("value", "Expected a string")] Ctx.empty (fun _ => rfl)

/-! ### Size-ceiling boundary -/

/-- C7: a size-ceiling refinement with limit `maxMB` on any base node
accepts a file of at most `maxMB * 1024 * 1024` bytes (passing the
base's success through unchanged) and rejects anything larger with a
single-entry error map keyed by the node's description; on the
`file()` chain in particular, limit 5 accepts 5242880 bytes and
rejects 5242881 bytes. -/
theorem maxSize_boundary :
    (∀ (s : ZetSchema) (maxMB : Nat) (msg : Option String) (v : Val) (p : Option Val)
        (b : Bool) (ctx ctx2 : Ctx) (f : FileV),
      s.validator v none false ctx = (.success (Val.vFile f), ctx2) →
      (s.maxSizeMB maxMB msg).validator v p b ctx
        = ((if f.size ≤ maxMB * 1024 * 1024
            then ValidationResult.success (Val.vFile f)
            else ValidationResult.failure
              [(s.description,
                msg.getD (s.description ++ " must not exceed " ++ toString maxMB ++ "MB"))]),
           ctx2))
    ∧ (∀ (maxMB : Nat) (f : FileV) (p : Option Val) (ctx : Ctx),
      (ZetValidation.file.maxSizeMB maxMB none).safeParse (Val.vFile f) p "default" ctx
        = ((if f.size ≤ maxMB * 1024 * 1024
            then ValidationResult.success (Val.vFile f)
            else ValidationResult.failure
              [("value", "value must not exceed " ++ toString maxMB ++ "MB")]), ctx))
    ∧ (ZetValidation.file.maxSizeMB 5 none).safeParse
        (Val.vFile ⟨"v.mp4", "video/mp4", 5242880⟩) none "default" Ctx.empty
      = (ValidationResult.success (Val.vFile ⟨"v.mp4", "video/mp4", 5242880⟩), Ctx.empty)
    ∧ (ZetValidation.file.maxSizeMB 5 none).safeParse
        (Val.vFile ⟨"v.mp4", "video/mp4", 5242881⟩) none "default" Ctx.empty
      = (ValidationResult.failure [("value", "value must not exceed 5MB")], Ctx.empty) := by
  refine ⟨?_, ?_, rfl, rfl⟩
  · intro s maxMB msg v p b ctx ctx2 f hbase
    unfold ZetSchema.maxSizeMB mkSchema
    simp only []
    rw [hbase]
    rcases le_or_lt f.size (maxMB * 1024 * 1024) with hle | hlt
    · simp [Nat.not_lt.2 hle, hle]
    · simp [hlt, Nat.not_le.2 hlt]
  · intro maxMB f p ctx
    unfold ZetSchema.safeParse ZetSchema.maxSizeMB ZetValidation.file mkSchema stageFn
    rcases le_or_lt f.size (maxMB * 1024 * 1024) with hle | hlt
    · simp [recordLookup, applyTransform, Nat.not_lt.2 hle, hle]
    · simp [recordLookup, applyTransform, hlt, Nat.not_le.2 hlt]

/-- C7 witness: the general boundary statement applied to the `file()`
base at limit 5 with files of 5242880 and 5242881 bytes. -/
theorem maxSize_boundary_witness :
    (ZetValidation.file.maxSizeMB 5 none).validator
        (Val.vFile ⟨"v.mp4", "video/mp4", 5242880⟩) none false Ctx.empty
      = (ValidationResult.success (Val.vFile ⟨"v.mp4", "video/mp4", 5242880⟩), Ctx.empty)
    ∧ (ZetValidation.file.maxSizeMB 5 none).validator
        (Val.vFile ⟨"v.mp4", "video/mp4", 5242881⟩) none false Ctx.empty
      = (ValidationResult.failure [("value", "value must not exceed 5MB")], Ctx.empty) :=
  ⟨maxSize_boundary.1 ZetValidation.file 5 none
     (Val.vFile ⟨"v.mp4", "video/mp4", 5242880⟩) none false Ctx.empty Ctx.empty
     ⟨"v.mp4", "video/mp4", 5242880⟩ rfl,
   maxSize_boundary.1 ZetValidation.file 5 none
     (Val.vFile ⟨"v.mp4", "video/mp4", 5242881⟩) none false Ctx.empty Ctx.empty
     ⟨"v.mp4", "video/mp4", 5242881⟩ rfl⟩

/-! ### Conditional dispatch -/

/-- `p(parent) = parent.kind === "premium"` from the spec's dispatch
property. -/
def premiumOnly : Val → Bool :=
  fun parent =>
    match getField parent "kind" with
    | .vStr s => s == "premium"
    | _ => false

/-- A branch builder whose node fails with a distinguishing error. -/
def thenBuilder : ZetSchema → ZetSchema :=
  fun _ =>
    mkSchema (fun _ _ _ ctx => (.failure [("value", "then branch ran")], ctx)) "value" none none

/-- The other branch, with its own distinguishing error. -/
def otherwiseBuilder : ZetSchema → ZetSchema :=
  fun _ =>
    mkSchema (fun _ _ _ ctx => (.failure [("value", "otherwise branch ran")], ctx)) "value" none none

/-- C8: a `when` node evaluates, per call, exactly the branch selected
by the predicate applied to the supplied parent context — the "then"
branch's node when it holds, the "otherwise" branch's node when it does
not — with the empty object used when no parent context is supplied;
in the spec's premium/basic scenario each parent reaches exactly its
branch's distinguishing error. -/
theorem when_dispatch :
    (∀ (s : ZetSchema) (c : Val → Bool) (tb ob : ZetSchema → ZetSchema)
        (v : Val) (p : Option Val) (b : Bool) (ctx : Ctx),
      (s.when c tb ob).validator v p b ctx
        = if c (coalesceParent p) then (tb s).validator v p false ctx
          else (ob s).validator v p false ctx)
    ∧ coalesceParent none = Val.vObj []
    ∧ (ZetValidation.string.when premiumOnly thenBuilder otherwiseBuilder).safeParse
        (Val.vStr "x") (some (Val.vObj [("kind", Val.vStr "premium")])) "default" Ctx.empty
      = (ValidationResult.failure [("value", "then branch ran")], Ctx.empty)
    ∧ (ZetValidation.string.when premiumOnly thenBuilder otherwiseBuilder).safeParse
        (Val.vStr "x") (some (Val.vObj [("kind", Val.vStr "basic")])) "default" Ctx.empty
      = (ValidationResult.failure [("value", "otherwise branch ran")], Ctx.empty) := by
  refine ⟨?_, rfl, rfl, rfl⟩
  intro s c tb ob v p b ctx
  unfold ZetSchema.when mkSchema
  by_cases hc : c (coalesceParent p)
  · simp [hc]
  · simp [hc]

/-! ### Progress callbacks are never threaded -/

/-- An external check that accepts and reports progress 10, 50, 100. -/
def progressCheck : FileV → Bool × List Nat := fun _ => (true, [10, 50, 100])

def demoFile : FileV := ⟨"doc.pdf", "application/pdf", 42⟩

/-- A `serverValidate` refinement over `file()` with the reporting check. -/
def serverNode : ZetSchema := ZetValidation.file.serverValidate progressCheck none

/-- C9: the safe entry point accepts no options argument and invokes
stage validators with `(value, parent)` only, so a caller-supplied
progress callback is never delivered to externally-delegated
refinements: evaluating a `serverValidate` node — directly, as a record
field, or as a sequence element — leaves the delivered-progress event
list empty, even though the check reports progress and the refinement's
wrapper would forward it (with the field's description) had an
`onProgress` callback reached the validator. -/
theorem progress_never_threaded :
    serverNode.safeParse (Val.vFile demoFile) (some (Val.vObj [])) "default" Ctx.empty
      = (ValidationResult.success (Val.vFile demoFile), Ctx.empty)
    ∧ ((ZetValidation.object [("doc", serverNode)] none).safeParse
        (Val.vObj [("doc", Val.vFile demoFile)]) none "default" Ctx.empty).2.events = []
    ∧ ((ZetValidation.array serverNode none).safeParse
        (Val.vArr [Val.vFile demoFile]) none "default" Ctx.empty).2.events = []
    ∧ (serverNode.validator (Val.vFile demoFile) none true Ctx.empty).2.events
      = [("value", 10), ("value", 50), ("value", 100)] :=
  ⟨rfl, rfl, rfl, rfl⟩

/-! ### Derivation methods: fresh nodes versus in-place stage registration -/

/-- C5: every derivation method builds a new node through the
constructor — its stage table is freshly seeded with only the
`"default"` entry (so it shares no registered stage of the receiver,
and the receiver, being untouched by these pure constructions, keeps
its own validator and stages) — while `stage` alone returns the
receiver itself with its `stages` mapping updated in place and every
other attribute untouched. -/
theorem derivations_fresh_stage_mutates (s : ZetSchema) (d : String) (tf : Val → Val)
    (freshId : Nat) (nm : String) (bld : ZetSchema → ZetSchema)
    (c : Val → Bool) (tb ob : ZetSchema → ZetSchema)
    (ts : List String) (msg : Option String) (mb : Nat)
    (check : FileV → Bool × List Nat) :
    ((s.describe d).validator = s.validator ∧ (s.describe d).description = d
      ∧ (s.describe d).transformFn = s.transformFn ∧ (s.describe d).cacheRef = s.cacheRef
      ∧ (s.describe d).stages = [("default", s.validator)])
    ∧ ((s.setTransform tf).validator = s.validator
      ∧ (s.setTransform tf).transformFn = some tf
      ∧ (s.setTransform tf).stages = [("default", s.validator)])
    ∧ (s.extend = mkSchema s.validator s.description s.transformFn s.cacheRef
      ∧ s.extend.stages = [("default", s.validator)])
    ∧ ((s.setCache freshId).cacheRef = some freshId
      ∧ (s.setCache freshId).validator = s.validator
      ∧ (s.setCache freshId).stages = [("default", s.validator)])
    ∧ ((s.optional).stages = [("default", (s.optional).validator)]
      ∧ (s.optional).description = s.description
      ∧ (s.optional).transformFn = s.transformFn ∧ (s.optional).cacheRef = s.cacheRef)
    ∧ ((s.when c tb ob).stages = [("default", (s.when c tb ob).validator)]
      ∧ (s.when c tb ob).description = s.description
      ∧ (s.when c tb ob).transformFn = s.transformFn ∧ (s.when c tb ob).cacheRef = s.cacheRef)
    ∧ ((s.type ts msg).stages = [("default", (s.type ts msg).validator)]
      ∧ (s.type ts msg).description = s.description
      ∧ (s.type ts msg).transformFn = s.transformFn ∧ (s.type ts msg).cacheRef = s.cacheRef)
    ∧ ((s.maxSizeMB mb msg).stages = [("default", (s.maxSizeMB mb msg).validator)]
      ∧ (s.maxSizeMB mb msg).description = s.description
      ∧ (s.maxSizeMB mb msg).transformFn = s.transformFn
      ∧ (s.maxSizeMB mb msg).cacheRef = s.cacheRef)
    ∧ ((s.serverValidate check msg).stages
        = [("default", (s.serverValidate check msg).validator)]
      ∧ (s.serverValidate check msg).description = s.description
      ∧ (s.serverValidate check msg).transformFn = s.transformFn
      ∧ (s.serverValidate check msg).cacheRef = s.cacheRef)
    ∧ ZetSchema.stage s nm bld = { s with stages := recordSet s.stages nm ((bld s).validator) } :=
  ⟨⟨rfl, rfl, rfl, rfl, rfl⟩, ⟨rfl, rfl, rfl⟩, ⟨rfl, rfl⟩, ⟨rfl, rfl, rfl⟩,
   ⟨rfl, rfl, rfl, rfl⟩, ⟨rfl, rfl, rfl, rfl⟩, ⟨rfl, rfl, rfl, rfl⟩,
   ⟨rfl, rfl, rfl, rfl⟩, ⟨rfl, rfl, rfl, rfl⟩, rfl⟩

/-! ### Structural combinators: error aggregation -/

/-- A schema whose validator neither reads nor writes the evaluation
context, carrying no cache and no registered extra stage — every
library base node and every pure refinement chain over one is of this
shape. -/
def CtxPure (s : ZetSchema) : Prop :=
  s.cacheRef = none
  ∧ s.stages = [("default", s.validator)]
  ∧ ∀ v p b ctx, s.validator v p b ctx = ((s.validator v p b Ctx.empty).1, ctx)

/-- The outcome of one child evaluation, taken in the empty context
(for `CtxPure` children the context is irrelevant). -/
def fieldOutcome (s : ZetSchema) (v : Val) (parent : Option Val) : ValidationResult :=
  (s.safeParse v parent "default" Ctx.empty).1

/-- For a context-pure child, `safeParse` returns its context-free
outcome and leaves the context untouched. -/
theorem safeParse_pure (s : ZetSchema) (hs : CtxPure s) (v : Val) (parent : Option Val)
    (ctx : Ctx) : s.safeParse v parent "default" ctx = (fieldOutcome s v parent, ctx) := by
  rcases hs with ⟨hc, hst, hv⟩
  have hstage : stageFn s "default" = s.validator := by
    unfold stageFn
    rw [hst]
    simp [recordLookup]
  unfold fieldOutcome ZetSchema.safeParse
  rw [hc, hstage]
  simp only []
  rw [hv v parent false ctx, hv v parent false Ctx.empty]

/-- `string()` is context-pure. -/
theorem ctxPure_string : CtxPure ZetValidation.string := by
  refine ⟨rfl, rfl, ?_⟩
  intro v p b ctx
  cases v <;> rfl

/-- The `Object.assign`-merge, in declaration order, of exactly the
failing fields' individual error maps (each under the child's own
keys). -/
def mergedFieldErrors (candidate : Val) :
    List (String × ZetSchema) → List (String × String) → List (String × String)
  | [], acc => acc
  | (k, sch) :: rest, acc =>
      match fieldOutcome sch (getField candidate k) (some candidate) with
      | .failure es => mergedFieldErrors candidate rest (recordAssign acc es)
      | .success _ => mergedFieldErrors candidate rest acc

/-- The record assembled from the succeeding fields, keyed per field in
declaration order. -/
def successFields (candidate : Val) :
    List (String × ZetSchema) → List (String × Val) → List (String × Val)
  | [], acc => acc
  | (k, sch) :: rest, acc =>
      match fieldOutcome sch (getField candidate k) (some candidate) with
      | .failure _ => successFields candidate rest acc
      | .success dv => successFields candidate rest (recordSet acc k dv)

/-- With context-pure fields, the field loop computes the merged error
map and the success record from the fields' individual outcomes and
leaves the context untouched. -/
theorem runFields_pure (candidate : Val) (shape : List (String × ZetSchema))
    (hpure : ∀ kv ∈ shape, CtxPure kv.2) :
    ∀ res errs ctx,
      runFields candidate shape res errs ctx
        = (successFields candidate shape res, mergedFieldErrors candidate shape errs, ctx) := by
  induction shape with
  | nil => intro res errs ctx; rfl
  | cons hd rest ih =>
      intro res errs ctx
      rcases hd with ⟨k, sch⟩
      have hsch : CtxPure sch := hpure (k, sch) (by simp)
      have hrest : ∀ kv ∈ rest, CtxPure kv.2 := fun kv hkv => hpure kv (by simp [hkv])
      simp only [runFields]
      rw [safeParse_pure sch hsch]
      simp only []
      cases hout : fieldOutcome sch (getField candidate k) (some candidate) with
      | failure es =>
          simp only []
          rw [ih hrest]
          simp only [successFields, mergedFieldErrors, hout]
      | success dv =>
          simp only []
          rw [ih hrest]
          simp only [successFields, mergedFieldErrors, hout]

theorem applyTransform_none (r : ValidationResult) : applyTransform none r = r := by
  cases r <;> rfl

/-- `safeParse` on a transform-less, cache-less constructor-built node
runs the node's validator with `(value, parent)` and no options. -/
theorem safeParse_mkSchema (f : Validator) (d : String) (v : Val) (p : Option Val)
    (ctx : Ctx) :
    (mkSchema f d none none).safeParse v p "default" ctx = f v p false ctx := by
  unfold ZetSchema.safeParse mkSchema stageFn
  simp [recordLookup, applyTransform_none]

/-- The record schema and candidate of the spec's own example:
`{name: text, age: text}` against `{name: 123, age: "5"}`. -/
def nameAgeSchema : ZetSchema :=
  ZetValidation.object [("name", ZetValidation.string), ("age", ZetValidation.string)] none

def nameAgeCandidate : Val := Val.vObj [("name", Val.vNum 123), ("age", Val.vStr "5")]

/-- C1 counterexample: on the spec's own example the failing field's
error entry keeps the child's own key `"value"` (the `string()` node's
hard-coded error key) — the error map is `{value: "Expected a string"}`
and not the claimed `{name: "Expected a string"}`. -/
theorem record_errors_not_field_keyed :
    nameAgeSchema.safeParse nameAgeCandidate none "default" Ctx.empty
      = (ValidationResult.failure [("value", "Expected a string")], Ctx.empty)
    ∧ ValidationResult.failure [("value", "Expected a string")]
      ≠ ValidationResult.failure [("name", "Expected a string")] :=
  ⟨rfl, by simp⟩

/-- C1 amended: for every record node whose fields are context-pure,
when some fields fail, the failure Outcome's error map is the
`Object.assign`-merge, in declaration order, of exactly the failing
fields' individual error maps under the children's own error keys (no
per-field prefix; equal keys from two failing fields collide, the later
field overwriting); when no field fails the record of the fields'
validated values is returned. -/
theorem record_error_union (shape : List (String × ZetSchema))
    (fields : List (String × Val)) (p : Option Val) (ctx : Ctx)
    (hpure : ∀ kv ∈ shape, CtxPure kv.2) :
    (mergedFieldErrors (Val.vObj fields) shape [] ≠ [] →
      (ZetValidation.object shape none).safeParse (Val.vObj fields) p "default" ctx
        = (.failure (mergedFieldErrors (Val.vObj fields) shape []), ctx))
    ∧ (mergedFieldErrors (Val.vObj fields) shape [] = [] →
      (ZetValidation.object shape none).safeParse (Val.vObj fields) p "default" ctx
        = (.success (Val.vObj (successFields (Val.vObj fields) shape [])), ctx)) := by
  have hrun := runFields_pure (Val.vObj fields) shape hpure [] [] ctx
  constructor
  · intro hne
    unfold ZetValidation.object
    rw [safeParse_mkSchema]
    simp only [typeofObject]
    rw [hrun]
    simp [List.isEmpty_iff, hne]
  · intro hemp
    unfold ZetValidation.object
    rw [safeParse_mkSchema]
    simp only [typeofObject]
    rw [hrun]
    simp [List.isEmpty_iff, hemp]

/-- C1 amended witness: on the spec's example the merged error map is
exactly the failing field's own single entry `{value: "Expected a string"}`. -/
theorem record_error_union_witness :
    mergedFieldErrors nameAgeCandidate
        [("name", ZetValidation.string), ("age", ZetValidation.string)] []
      = [("value", "Expected a string")]
    ∧ nameAgeSchema.safeParse nameAgeCandidate none "default" Ctx.empty
      = (ValidationResult.failure [("value", "Expected a string")], Ctx.empty) :=
  ⟨rfl,
   (record_error_union [("name", ZetValidation.string), ("age", ZetValidation.string)]
      [("name", Val.vNum 123), ("age", Val.vStr "5")] none Ctx.empty
      (by intro kv hkv
          simp only [List.mem_cons, List.not_mem_nil, or_false] at hkv
          rcases hkv with rfl | rfl <;> exact ctxPure_string)).1
     (by decide)⟩

/-! ### The sequence combinator -/

/-- The element loop of the `array` combinator with the batching
structure flattened out: elements processed one at a time in input
order (the batched loop computes exactly this, `runBatches_eq_runSeq`). -/
def runSeq (itemSchema : ZetSchema) :
    List Val → Nat → List Val → List (String × String) → Ctx →
    List Val × List (String × String) × Ctx
  | [], _, acc, errs, ctx => (acc, errs, ctx)
  | item :: rest, base, acc, errs, ctx =>
      let out := itemSchema.safeParse item none "default" ctx
      match out.1 with
      | .failure es =>
          runSeq itemSchema rest (base + 1) acc
            (es.foldl (fun e kv => recordSet e (toString base ++ "." ++ kv.1) kv.2) errs)
            out.2
      | .success d => runSeq itemSchema rest (base + 1) (acc ++ [d]) errs out.2

theorem runBatchItems_eq_runSeq (itemSchema : ZetSchema) (base : Nat)
    (batch : List Val) : ∀ (idx : Nat) (acc : List Val)
    (errs : List (String × String)) (ctx : Ctx),
    runBatchItems itemSchema base batch idx acc errs ctx
      = runSeq itemSchema batch (base + idx) acc errs ctx := by
  induction batch with
  | nil => intro idx acc errs ctx; rfl
  | cons item rest ih =>
      intro idx acc errs ctx
      simp only [runBatchItems, runSeq]
      cases hout : (itemSchema.safeParse item none "default" ctx).1 with
      | failure es => simp only []; rw [ih]; rfl
      | success d => simp only []; rw [ih]; rfl

theorem runSeq_append (itemSchema : ZetSchema) (l1 l2 : List Val) :
    ∀ (base : Nat) (acc : List Val) (errs : List (String × String)) (ctx : Ctx),
    runSeq itemSchema (l1 ++ l2) base acc errs ctx
      = runSeq itemSchema l2 (base + l1.length)
          (runSeq itemSchema l1 base acc errs ctx).1
          (runSeq itemSchema l1 base acc errs ctx).2.1
          (runSeq itemSchema l1 base acc errs ctx).2.2 := by
  induction l1 with
  | nil => intro base acc errs ctx; rfl
  | cons item rest ih =>
      intro base acc errs ctx
      simp only [List.cons_append, List.append_eq, List.length_cons, runSeq]
      have harith : base + 1 + rest.length = base + (rest.length + 1) := by omega
      cases hout : (itemSchema.safeParse item none "default" ctx).1 with
      | failure es =>
          simp only []
          rw [ih, harith]
      | success d =>
          simp only []
          rw [ih, harith]

/-- Any fuel bound of at least the element count computes the batched
loop, and the result is the sequential element loop — in particular the
batch size does not affect the outcome. -/
theorem runBatches_eq_runSeq (itemSchema : ZetSchema) (cp : Nat) :
    ∀ (fuel : Nat) (items : List Val), items.length ≤ fuel →
    ∀ (base : Nat) (acc : List Val) (errs : List (String × String)) (ctx : Ctx),
    runBatches itemSchema cp fuel items base acc errs ctx
      = runSeq itemSchema items base acc errs ctx := by
  intro fuel
  induction fuel with
  | zero =>
      intro items hlen base acc errs ctx
      cases items with
      | nil => rfl
      | cons item rest => simp at hlen
  | succ fuel ih =>
      intro items hlen base acc errs ctx
      cases items with
      | nil => rfl
      | cons item rest =>
          simp only [runBatches]
          rw [runBatchItems_eq_runSeq]
          have hrest : rest.length ≤ fuel := by
            simp only [List.length_cons] at hlen; omega
          rw [ih (rest.drop cp) (by simp [List.length_drop]; omega)]
          rcases le_or_lt cp rest.length with hle | hlt
          · have hsplit : item :: rest = (item :: rest.take cp) ++ rest.drop cp := by
              simp [List.take_append_drop]
            conv_rhs => rw [hsplit]
            rw [runSeq_append]
            have hlen2 : (item :: rest.take cp).length = cp + 1 := by
              simp [List.length_take, Nat.min_eq_left hle]
            rw [hlen2]
            simp only [Nat.add_zero]
          · have hdrop : rest.drop cp = [] := List.drop_eq_nil_of_le (le_of_lt hlt)
            have htake : rest.take cp = rest := List.take_of_length_le (le_of_lt hlt)
            rw [hdrop, htake]
            simp only [runSeq, Nat.add_zero]

/-- The sequence of the succeeding elements' validated values, in input
order. -/
def successItems (itemSchema : ZetSchema) (items : List Val) : List Val :=
  items.filterMap (fun it =>
    match fieldOutcome itemSchema it none with
    | .success d => some d
    | .failure _ => none)

/-- The merge of the failing elements' error maps, each entry prefixed
with the element's index (`` `${index}.${key}` ``), in input order. -/
def mergedItemErrors (itemSchema : ZetSchema) :
    List Val → Nat → List (String × String) → List (String × String)
  | [], _, acc => acc
  | it :: rest, i, acc =>
      match fieldOutcome itemSchema it none with
      | .failure es =>
          mergedItemErrors itemSchema rest (i + 1)
            (es.foldl (fun e kv => recordSet e (toString i ++ "." ++ kv.1) kv.2) acc)
      | .success _ => mergedItemErrors itemSchema rest (i + 1) acc

/-- The value carried by a success outcome. -/
def itemData : ValidationResult → Val
  | .success d => d
  | .failure _ => .vUndefined

/-- With a context-pure item schema, the element loop appends the
succeeding elements' values in input order, merges the failing
elements' index-prefixed errors, and leaves the context untouched. -/
theorem runSeq_pure (itemSchema : ZetSchema) (hpure : CtxPure itemSchema)
    (items : List Val) : ∀ (base : Nat) (acc : List Val)
    (errs : List (String × String)) (ctx : Ctx),
    runSeq itemSchema items base acc errs ctx
      = (acc ++ successItems itemSchema items,
         mergedItemErrors itemSchema items base errs, ctx) := by
  induction items with
  | nil => intro base acc errs ctx; simp [runSeq, successItems, mergedItemErrors]
  | cons item rest ih =>
      intro base acc errs ctx
      simp only [runSeq]
      rw [safeParse_pure itemSchema hpure]
      simp only []
      cases hout : fieldOutcome itemSchema item none with
      | failure es =>
          simp only []
          rw [ih]
          simp [successItems, mergedItemErrors, hout, List.filterMap_cons]
      | success d =>
          simp only []
          rw [ih]
          simp [successItems, mergedItemErrors, hout, List.filterMap_cons]

theorem recordSet_ne_nil {κ α : Type} [DecidableEq κ] (m : List (κ × α)) (k : κ) (v : α) :
    recordSet m k v ≠ [] := by
  cases m with
  | nil => simp [recordSet]
  | cons hd tl =>
      simp only [recordSet]
      split <;> simp

theorem foldl_recordSet_ne_nil (f : String × String → String)
    (es : List (String × String)) :
    ∀ acc : List (String × String), acc ≠ [] →
      es.foldl (fun e kv => recordSet e (f kv) kv.2) acc ≠ [] := by
  induction es with
  | nil => intro acc h; simpa using h
  | cons hd tl ih =>
      intro acc h
      simp only [List.foldl_cons]
      exact ih _ (recordSet_ne_nil _ _ _)

theorem mergedItemErrors_ne_nil_of_acc (itemSchema : ZetSchema) (items : List Val) :
    ∀ (i : Nat) (acc : List (String × String)), acc ≠ [] →
      mergedItemErrors itemSchema items i acc ≠ [] := by
  induction items with
  | nil => intro i acc h; simpa [mergedItemErrors] using h
  | cons item rest ih =>
      intro i acc h
      simp only [mergedItemErrors]
      cases hout : fieldOutcome itemSchema item none with
      | failure es =>
          simp only []
          cases es with
          | nil => exact ih _ _ h
          | cons e0 etl =>
              exact ih _ _ (foldl_recordSet_ne_nil _ etl _ (recordSet_ne_nil _ _ _))
      | success d => exact ih _ _ h

theorem mergedItemErrors_nil_of_success (itemSchema : ZetSchema) (items : List Val)
    (hall : ∀ it ∈ items, ∃ d, fieldOutcome itemSchema it none = .success d) :
    ∀ (i : Nat) (acc : List (String × String)),
      mergedItemErrors itemSchema items i acc = acc := by
  induction items with
  | nil => intro i acc; rfl
  | cons item rest ih =>
      intro i acc
      obtain ⟨d, hd⟩ := hall item (by simp)
      simp only [mergedItemErrors, hd]
      exact ih (fun it hit => hall it (by simp [hit])) _ _

theorem successItems_eq_map (itemSchema : ZetSchema) (items : List Val)
    (hall : ∀ it ∈ items, ∃ d, fieldOutcome itemSchema it none = .success d) :
    successItems itemSchema items
      = items.map (fun it => itemData (fieldOutcome itemSchema it none)) := by
  induction items with
  | nil => rfl
  | cons item rest ih =>
      obtain ⟨d, hd⟩ := hall item (by simp)
      simp only [successItems, List.filterMap_cons, List.map_cons, hd, itemData]
      exact congrArg _ (ih (fun it hit => hall it (by simp [hit])))

/-- Evaluation of a sequence node over a context-pure item schema, for
any configured batch concurrency: the outcome is determined by the
elements' individual outcomes — the full ordered sequence of validated
values when the merged index-prefixed error map is empty, that error
map otherwise. -/
theorem array_safeParse_pure (itemSchema : ZetSchema) (hpure : CtxPure itemSchema)
    (conc : Option Nat) (items : List Val) (p : Option Val) (ctx : Ctx) :
    (ZetValidation.array itemSchema conc).safeParse (Val.vArr items) p "default" ctx
      = ((if (mergedItemErrors itemSchema items 0 []).isEmpty
          then .success (.vArr (successItems itemSchema items))
          else .failure (mergedItemErrors itemSchema items 0 [])), ctx) := by
  unfold ZetValidation.array
  rw [safeParse_mkSchema]
  simp only []
  rw [runBatches_eq_runSeq itemSchema _ items.length items (le_refl _)]
  rw [runSeq_pure itemSchema hpure]
  simp only [List.nil_append]
  split <;> rfl

theorem mergedItemErrors_ne_nil_of_failure (itemSchema : ZetSchema) :
    ∀ items : List Val,
      (∀ it ∈ items, ∀ es, fieldOutcome itemSchema it none = .failure es → es ≠ []) →
      (∃ it, it ∈ items ∧ ∃ es, fieldOutcome itemSchema it none = .failure es) →
      ∀ (i : Nat) (acc : List (String × String)),
        mergedItemErrors itemSchema items i acc ≠ [] := by
  intro items
  induction items with
  | nil =>
      intro _ hex i acc
      rcases hex with ⟨it, hit, _⟩
      cases hit
  | cons item rest ih =>
      intro hne hex i acc
      simp only [mergedItemErrors]
      cases hout : fieldOutcome itemSchema item none with
      | failure es =>
          simp only []
          cases es with
          | nil => exact absurd rfl (hne item (by simp) [] hout)
          | cons e0 etl =>
              exact mergedItemErrors_ne_nil_of_acc itemSchema rest _ _
                (foldl_recordSet_ne_nil _ etl _ (recordSet_ne_nil _ _ _))
      | success d =>
          simp only []
          rcases hex with ⟨it, hit, es, hes⟩
          rcases List.mem_cons.1 hit with rfl | hit2
          · rw [hout] at hes; cases hes
          · exact ih (fun x hx => hne x (by simp [hx])) ⟨it, hit2, es, hes⟩ _ _

/-- An item node that fails on numbers with an empty error map and
passes everything else through. -/
def emptyFailOnNum : ZetSchema :=
  mkSchema
    (fun value _parent _onProg ctx =>
      match value with
      | .vNum _ => (.failure [], ctx)
      | v => (.success v, ctx))
    "value" none none

/-- C4 counterexample: an element failure whose error map is empty is
silently dropped — the sequence node returns a success carrying a
PARTIAL sequence (two of the three input elements), contradicting "on
any element failure the Outcome is the merged index-prefixed error map
and no partial sequence is ever returned". -/
theorem array_partial_sequence :
    fieldOutcome emptyFailOnNum (Val.vNum 5) none = ValidationResult.failure []
    ∧ (ZetValidation.array emptyFailOnNum none).safeParse
        (Val.vArr [Val.vStr "a", Val.vNum 5, Val.vStr "b"]) none "default" Ctx.empty
      = (ValidationResult.success (Val.vArr [Val.vStr "a", Val.vStr "b"]), Ctx.empty) :=
  ⟨rfl, rfl⟩

/-- C4 amended: over a context-pure item schema (and any batch
concurrency): when every element validates successfully the Outcome is
the success carrying the fully validated sequence in input order; when
the merged index-prefixed error map is nonempty the Outcome is exactly
that error map and no sequence is returned; and provided every failing
element reports at least one error entry (as every built-in node does),
any element failure makes that merged map nonempty — so no partial
sequence is ever returned. -/
theorem array_outcomes (itemSchema : ZetSchema) (conc : Option Nat) (items : List Val)
    (p : Option Val) (ctx : Ctx) (hpure : CtxPure itemSchema) :
    ((∀ it ∈ items, ∃ d, fieldOutcome itemSchema it none = .success d) →
      (ZetValidation.array itemSchema conc).safeParse (Val.vArr items) p "default" ctx
        = (.success (.vArr (items.map (fun it => itemData (fieldOutcome itemSchema it none)))),
           ctx))
    ∧ (mergedItemErrors itemSchema items 0 [] ≠ [] →
      (ZetValidation.array itemSchema conc).safeParse (Val.vArr items) p "default" ctx
        = (.failure (mergedItemErrors itemSchema items 0 []), ctx))
    ∧ ((∀ it ∈ items, ∀ es, fieldOutcome itemSchema it none = .failure es → es ≠ []) →
      (∃ it, it ∈ items ∧ ∃ es, fieldOutcome itemSchema it none = .failure es) →
      mergedItemErrors itemSchema items 0 [] ≠ []) := by
  refine ⟨?_, ?_, ?_⟩
  · intro hall
    rw [array_safeParse_pure itemSchema hpure]
    rw [mergedItemErrors_nil_of_success itemSchema items hall]
    rw [successItems_eq_map itemSchema items hall]
    rfl
  · intro hne
    rw [array_safeParse_pure itemSchema hpure]
    simp [List.isEmpty_iff, hne]
  · intro hne hex
    exact mergedItemErrors_ne_nil_of_failure itemSchema items hne hex 0 []

/-- C4 amended witness: the all-valid sequence returns the full ordered
sequence; the spec's `[valid, invalid, valid]` example returns exactly
the error map `{"1.value": "Expected a string"}` and no sequence. -/
theorem array_outcomes_witness :
    (ZetValidation.array ZetValidation.string none).safeParse
        (Val.vArr [Val.vStr "a", Val.vStr "b"]) none "default" Ctx.empty
      = (ValidationResult.success (Val.vArr [Val.vStr "a", Val.vStr "b"]), Ctx.empty)
    ∧ (ZetValidation.array ZetValidation.string none).safeParse
        (Val.vArr [Val.vStr "a", Val.vNum 5, Val.vStr "b"]) none "default" Ctx.empty
      = (ValidationResult.failure [("1.value", "Expected a string")], Ctx.empty) :=
  ⟨(array_outcomes ZetValidation.string none [Val.vStr "a", Val.vStr "b"]
      none Ctx.empty ctxPure_string).1
     (by intro it hit
         simp only [List.mem_cons, List.not_mem_nil, or_false] at hit
         rcases hit with rfl | rfl <;> exact ⟨_, rfl⟩),
   (array_outcomes ZetValidation.string none [Val.vStr "a", Val.vNum 5, Val.vStr "b"]
      none Ctx.empty ctxPure_string).2.1 (by decide)⟩
